import Mathlib

/-!
Verification of `control_and_cleanup.py` (OpenStack server control and
Kubernetes pod cleanup tool).

The Python source is shallowly embedded: pure string manipulation becomes
Lean functions on `List Char` / `String`; loops over external API results
become functions over explicit environments describing the outcomes of the
API calls; exceptions become explicit outcome values.
-/

namespace ControlAndCleanup

/-! ## Embedding of `get_base_name` (source lines 494-518)

Python:
  parts = pod_name.split('-')
  base = parts[0]
  for i in range(1, len(parts)):
      if len(parts[i]) < 4 or not re.match(r'^[a-z0-9]+$', parts[i]):
          base += '-' + parts[i]
      else:
          break
  return base
-/

/-- Python `str.split('-')`, computed as (first segment, remaining segments).
Python's split on a nonempty separator always yields at least one (possibly
empty) segment, so the result of the split is `core.1 :: core.2`. -/
def splitOnDashCore : List Char → List Char × List (List Char)
  | [] => ([], [])
  | c :: cs =>
    if c = '-' then ([], (splitOnDashCore cs).1 :: (splitOnDashCore cs).2)
    else (c :: (splitOnDashCore cs).1, (splitOnDashCore cs).2)

/-- Python `pod_name.split('-')`. -/
def splitOnDash (l : List Char) : List (List Char) :=
  (splitOnDashCore l).1 :: (splitOnDashCore l).2

/-- Membership in the character class `[a-z0-9]`. -/
def isLowerAlnumChar (c : Char) : Bool :=
  (decide ('a' ≤ c) && decide (c ≤ 'z')) || (decide ('0' ≤ c) && decide (c ≤ '9'))

/-- Python `re.match(r'^[a-z0-9]+$', s) is not None`.  `re.match` anchors at
the start; `$` matches at the end of the string or just before a single
trailing newline, so the regex accepts `s` exactly when `s`, after dropping
one trailing newline if present, is nonempty and all its characters are in
`[a-z0-9]`. -/
def matchesLowerAlnum (s : List Char) : Bool :=
  let t := if s.getLast? = some '\n' then s.dropLast else s
  !t.isEmpty && t.all isLowerAlnumChar

/-- The loop-continuation test of `get_base_name`:
`len(parts[i]) < 4 or not re.match(r'^[a-z0-9]+$', parts[i])`.
The loop appends the segment when this holds and breaks otherwise. -/
def keepSeg (p : List Char) : Bool :=
  decide (p.length < 4) || !matchesLowerAlnum p

/-- The `for`/`break` loop of `get_base_name`: `base` is the accumulator,
each kept segment is appended as `'-' + part`, and the loop stops at the
first segment that fails `keepSeg`. -/
def gbnLoop (base : List Char) : List (List Char) → List Char
  | [] => base
  | p :: ps => if keepSeg p then gbnLoop (base ++ '-' :: p) ps else base

/-- Source `get_base_name` on the underlying character list:
`parts = split('-')`, `base = parts[0]`, then the loop over `parts[1:]`. -/
def get_base_name_list (name : List Char) : List Char :=
  gbnLoop (splitOnDashCore name).1 (splitOnDashCore name).2

/-- Source function `get_base_name` (lines 494-518). -/
def get_base_name (pod_name : String) : String :=
  ⟨get_base_name_list pod_name.data⟩

example : get_base_name "myapp-deployment-abc1" = "myapp" := by decide

example : get_base_name "worker-7f8c9d-x2" = "worker" := by decide

example : get_base_name "app-box" = "app-box" := by decide

example : get_base_name "a-bc-xyzw-q" = "a-bc" := by decide

/-! ### Structural lemmas about splitting and joining on dashes -/

/-- Re-joining a list of segments, each preceded by a dash. -/
def dashJoin : List (List Char) → List Char
  | [] => []
  | q :: qs => '-' :: q ++ dashJoin qs

lemma dashJoin_append (a b : List (List Char)) :
    dashJoin (a ++ b) = dashJoin a ++ dashJoin b := by
  induction a with
  | nil => simp [dashJoin]
  | cons q qs ih => simp [dashJoin, ih]

lemma join_splitOnDashCore (l : List Char) :
    (splitOnDashCore l).1 ++ dashJoin (splitOnDashCore l).2 = l := by
  induction l with
  | nil => simp [splitOnDashCore, dashJoin]
  | cons c cs ih =>
    by_cases h : c = '-'
    · subst h
      simp [splitOnDashCore, dashJoin, ih]
    · simp only [splitOnDashCore, if_neg h]
      rw [List.cons_append, ih]

lemma dash_not_mem_splitOnDashCore (l : List Char) :
    '-' ∉ (splitOnDashCore l).1 ∧ ∀ q ∈ (splitOnDashCore l).2, '-' ∉ q := by
  induction l with
  | nil => simp [splitOnDashCore]
  | cons c cs ih =>
    by_cases h : c = '-'
    · simp only [splitOnDashCore, if_pos h]
      refine ⟨by simp, ?_⟩
      intro q hq
      rcases List.mem_cons.mp hq with h1 | h1
      · exact h1 ▸ ih.1
      · exact ih.2 q h1
    · simp only [splitOnDashCore, if_neg h]
      refine ⟨?_, ih.2⟩
      intro hmem
      rcases List.mem_cons.mp hmem with h1 | h1
      · exact h (h1.symm)
      · exact ih.1 h1

lemma mem_splitOnDashCore (l : List Char) (c : Char) :
    (c ∈ (splitOnDashCore l).1 → c ∈ l) ∧
    (∀ q ∈ (splitOnDashCore l).2, c ∈ q → c ∈ l) := by
  induction l with
  | nil => simp [splitOnDashCore]
  | cons a cs ih =>
    by_cases h : a = '-'
    · simp only [splitOnDashCore, if_pos h]
      refine ⟨by simp, ?_⟩
      intro q hq hc
      rcases List.mem_cons.mp hq with h1 | h1
      · exact List.mem_cons_of_mem a (ih.1 (h1 ▸ hc))
      · exact List.mem_cons_of_mem a (ih.2 q h1 hc)
    · simp only [splitOnDashCore, if_neg h]
      constructor
      · intro hc
        rcases List.mem_cons.mp hc with h1 | h1
        · exact h1 ▸ List.mem_cons_self a cs
        · exact List.mem_cons_of_mem a (ih.1 h1)
      · intro q hq hc
        exact List.mem_cons_of_mem a (ih.2 q hq hc)

lemma gbnLoop_eq_takeWhile (ps : List (List Char)) :
    ∀ base, gbnLoop base ps = base ++ dashJoin (ps.takeWhile keepSeg) := by
  induction ps with
  | nil => intro base; simp [gbnLoop, dashJoin]
  | cons p ps ih =>
    intro base
    by_cases h : keepSeg p
    · rw [gbnLoop, if_pos h, ih, List.takeWhile_cons, if_pos h]
      simp [dashJoin]
    · rw [gbnLoop, if_neg h, List.takeWhile_cons, if_neg h]
      simp [dashJoin]

lemma splitOnDashCore_append_of_dashFree (p : List Char) (rest : List Char)
    (hp : '-' ∉ p) :
    splitOnDashCore (p ++ rest) =
      (p ++ (splitOnDashCore rest).1, (splitOnDashCore rest).2) := by
  induction p with
  | nil => simp
  | cons c cs ih =>
    have hc : c ≠ '-' := fun h => hp (h ▸ List.mem_cons_self c cs)
    have hcs : '-' ∉ cs := fun h => hp (List.mem_cons_of_mem c h)
    simp only [List.cons_append, splitOnDashCore, if_neg hc, List.append_eq, ih hcs]

lemma splitOnDashCore_dashJoin (ks : List (List Char)) :
    ∀ p, '-' ∉ p → (∀ q ∈ ks, '-' ∉ q) →
      splitOnDashCore (p ++ dashJoin ks) = (p, ks) := by
  induction ks with
  | nil =>
    intro p hp _
    rw [dashJoin, List.append_nil]
    have := splitOnDashCore_append_of_dashFree p [] hp
    simpa [splitOnDashCore] using this
  | cons q ks ih =>
    intro p hp hks
    rw [dashJoin, splitOnDashCore_append_of_dashFree p _ hp]
    have hq : '-' ∉ q := hks q (List.mem_cons_self q ks)
    have hks' : ∀ r ∈ ks, '-' ∉ r := fun r hr => hks r (List.mem_cons_of_mem q hr)
    have hrec := ih q hq hks'
    simp only [List.cons_append, splitOnDashCore, if_pos rfl, List.append_eq]
    simp [hrec]

lemma takeWhile_keepSeg_idem (ps : List (List Char)) :
    (ps.takeWhile keepSeg).takeWhile keepSeg = ps.takeWhile keepSeg := by
  induction ps with
  | nil => simp
  | cons p ps ih =>
    by_cases h : keepSeg p
    · rw [List.takeWhile_cons, if_pos h, List.takeWhile_cons, if_pos h, ih]
    · rw [List.takeWhile_cons, if_neg h]
      simp

lemma get_base_name_list_eq (l : List Char) :
    get_base_name_list l =
      (splitOnDashCore l).1 ++ dashJoin ((splitOnDashCore l).2.takeWhile keepSeg) := by
  rw [get_base_name_list, gbnLoop_eq_takeWhile]

lemma mem_of_takeWhile_mem {α : Type} (f : α → Bool) :
    ∀ (l : List α) (a : α), a ∈ l.takeWhile f → a ∈ l := by
  intro l
  induction l with
  | nil => simp
  | cons x xs ih =>
    intro a ha
    rw [List.takeWhile_cons] at ha
    by_cases h : f x
    · rw [if_pos h] at ha
      rcases List.mem_cons.mp ha with h1 | h1
      · exact h1 ▸ List.mem_cons_self x xs
      · exact List.mem_cons_of_mem x (ih a h1)
    · rw [if_neg h] at ha
      simp at ha

lemma takeWhile_congr_mem {α : Type} (f g : α → Bool) :
    ∀ (l : List α), (∀ a ∈ l, f a = g a) → l.takeWhile f = l.takeWhile g := by
  intro l
  induction l with
  | nil => simp
  | cons x xs ih =>
    intro h
    rw [List.takeWhile_cons, List.takeWhile_cons, h x (List.mem_cons_self x xs),
      ih (fun a ha => h a (List.mem_cons_of_mem x ha))]

lemma get_base_name_list_idem (l : List Char) :
    get_base_name_list (get_base_name_list l) = get_base_name_list l := by
  have hp : '-' ∉ (splitOnDashCore l).1 := (dash_not_mem_splitOnDashCore l).1
  have hks : ∀ q ∈ (splitOnDashCore l).2.takeWhile keepSeg, '-' ∉ q := fun q hq =>
    (dash_not_mem_splitOnDashCore l).2 q (mem_of_takeWhile_mem keepSeg _ q hq)
  have hcore := splitOnDashCore_dashJoin ((splitOnDashCore l).2.takeWhile keepSeg)
    (splitOnDashCore l).1 hp hks
  rw [get_base_name_list_eq l, get_base_name_list_eq, hcore]
  simp [takeWhile_keepSeg_idem]

/-! ## Claim C1: the base-name derivation rule -/

/-- Stated from the claim wording: a segment that consists only of lowercase
letters and digits (nonempty, every character in the class). -/
def segLowerAlnumOnly (q : List Char) : Bool :=
  !q.isEmpty && q.all isLowerAlnumChar

/-- Stated from claim C1's words: split the pod name on dashes and re-join
leading segments, stopping at and excluding the first segment that is both
SHORTER than 4 characters and lowercase-alphanumeric-only. -/
def base_name_claimC1 (pod_name : String) : String :=
  ⟨(splitOnDashCore pod_name.data).1 ++
    dashJoin ((splitOnDashCore pod_name.data).2.takeWhile
      (fun q => !(decide (q.length < 4) && segLowerAlnumOnly q)))⟩

/-- Claim C1 with the threshold direction corrected: the derivation stops at
and excludes the first segment that is AT LEAST 4 characters long and
lowercase-alphanumeric-only; every earlier segment (and no later one) is
re-joined into the base name. -/
def base_name_amendedC1 (pod_name : String) : String :=
  ⟨(splitOnDashCore pod_name.data).1 ++
    dashJoin ((splitOnDashCore pod_name.data).2.takeWhile
      (fun q => !(decide (4 ≤ q.length) && segLowerAlnumOnly q)))⟩

/-- Claim C1, as stated, is false of the code: on the pod name "app-box" the
code keeps the short lowercase segment "box" and returns the whole name,
while the claim's rule ("stop at the first segment shorter than 4 characters
that is lowercase-alphanumeric-only") would stop before "box" and return
"app". -/
theorem claimC1_counterexample :
    get_base_name "app-box" = "app-box" ∧ base_name_claimC1 "app-box" = "app" ∧
      get_base_name "app-box" ≠ base_name_claimC1 "app-box" := by
  refine ⟨by decide, by decide, by decide⟩

lemma keepSeg_of_no_newline (q : List Char) (h : '\n' ∉ q) :
    keepSeg q = !(decide (4 ≤ q.length) && segLowerAlnumOnly q) := by
  have hlast : q.getLast? ≠ some '\n' := by
    intro hl
    rcases List.mem_getLast?_eq_getLast (Option.mem_def.mpr hl) with ⟨hq, hEq⟩
    exact h (hEq ▸ List.getLast_mem hq)
  have hm : matchesLowerAlnum q = segLowerAlnumOnly q := by
    rw [matchesLowerAlnum, segLowerAlnumOnly]
    simp only [if_neg hlast]
  rw [keepSeg, hm]
  by_cases h4 : q.length < 4
  · have h4' : ¬ (4 ≤ q.length) := by omega
    simp [h4, h4']
  · have h4' : 4 ≤ q.length := by omega
    simp [h4, h4']

/-- Claim C1 (amended): for every pod name containing no newline character,
the source `get_base_name` splits on dashes and re-joins leading segments,
stopping at — and excluding — the first segment that is at least 4
characters long and consists only of lowercase letters and digits; all
segments before that first qualifying segment, and no later ones, appear in
the returned base name.  (The newline proviso exists because Python's
regex anchor also accepts a single trailing newline in a segment.) -/
theorem get_base_name_eq_amendedC1 (n : String) (hn : '\n' ∉ n.data) :
    get_base_name n = base_name_amendedC1 n := by
  rw [get_base_name, base_name_amendedC1]
  have htw : (splitOnDashCore n.data).2.takeWhile keepSeg =
      (splitOnDashCore n.data).2.takeWhile
        (fun q => !(decide (4 ≤ q.length) && segLowerAlnumOnly q)) := by
    apply takeWhile_congr_mem
    intro q hq
    apply keepSeg_of_no_newline
    intro hc
    exact hn ((mem_splitOnDashCore n.data '\n').2 q hq hc)
  rw [get_base_name_list_eq, htw]

/-- Witness for the amended claim C1 at the concrete pod name of the spec's
own example. -/
theorem get_base_name_eq_amendedC1_witness :
    '\n' ∉ ("myapp-deployment-abc1" : String).data ∧
      get_base_name "myapp-deployment-abc1" =
        base_name_amendedC1 "myapp-deployment-abc1" :=
  ⟨by decide, get_base_name_eq_amendedC1 "myapp-deployment-abc1" (by decide)⟩

/-! ## Claim C2: the two concrete base-name examples -/

/-- Claim C2 concerns the concrete values of `get_base_name` on the spec's two
example pod names.  The code returns "myapp" on "myapp-deployment-abc1" —
the loop already breaks at the segment "deployment", a lowercase-alphabetic
segment of length at least 4 — contradicting the claimed value
"myapp-deployment" and the function's own docstring example.  The second
example does hold: "worker-7f8c9d-x2" gives "worker". -/
theorem get_base_name_concrete_examples :
    get_base_name "myapp-deployment-abc1" = "myapp" ∧
      get_base_name "worker-7f8c9d-x2" = "worker" := by
  refine ⟨by decide, by decide⟩

/-! ## Claim C3: dash-boundary and idempotence -/

/-- Claim C3: for every pod name, `get_base_name` returns a leading piece of
the original name that is either the whole name or is followed immediately
by a dash character, and `get_base_name` is idempotent. -/
theorem get_base_name_boundary_and_idem (n : String) :
    (∃ rest : List Char, n.data = (get_base_name n).data ++ rest ∧
        (rest = [] ∨ rest.head? = some '-')) ∧
    get_base_name (get_base_name n) = get_base_name n := by
  constructor
  · refine ⟨dashJoin ((splitOnDashCore n.data).2.dropWhile keepSeg), ?_, ?_⟩
    · conv_lhs => rw [← join_splitOnDashCore n.data]
      rw [show (get_base_name n).data = get_base_name_list n.data from rfl,
        get_base_name_list_eq, List.append_assoc, ← dashJoin_append,
        List.takeWhile_append_dropWhile]
    · cases h : (splitOnDashCore n.data).2.dropWhile keepSeg with
      | nil => left; simp [dashJoin]
      | cons q qs => right; simp [dashJoin]
  · show (⟨get_base_name_list (get_base_name_list n.data)⟩ : String) = _
    rw [get_base_name_list_idem]
    rfl

/-! ## Claim C4: per-group deletion-candidate selection in
`cleanup_duplicate_pods` (source lines 574-585)

Python, for each `pod_list` in `pod_groups.values()`:
  node_ips = set(p["node_ip"] for p in pod_list)
  if len(pod_list) > 1 and len(node_ips) <= 2:
      pod_list_sorted = sorted(pod_list, key=lambda x: x["age"])
      to_delete = pod_list_sorted[0]
      pods_to_delete.append((to_delete["namespace"], to_delete["name"]))
-/

/-- One entry of a pod group as built by `cleanup_duplicate_pods`:
the dict with keys "namespace", "name", "node_ip", "age". -/
structure PodEntry where
  ns : String
  name : String
  node_ip : String
  age : Int
deriving DecidableEq, Repr

/-- Python `set(p["node_ip"] for p in pod_list)`, as the list of distinct
host IPs occurring in the group. -/
def groupNodeIps (pod_list : List PodEntry) : List String :=
  (pod_list.map (fun p => p.node_ip)).dedup

/-- Python `sorted(pod_list, key=lambda x: x["age"])[0]` on a nonempty list:
Python's sort is stable, so index 0 of the sorted list is the first element
of the input attaining the minimal age.  Computed directly by a left fold
that keeps the earlier element on ties. -/
def firstMinByAge (p : PodEntry) (ps : List PodEntry) : PodEntry :=
  ps.foldl (fun acc q => if q.age < acc.age then q else acc) p

/-- The per-group body of the deletion loop of `cleanup_duplicate_pods`:
the deletion candidate produced for one pod group, if any. -/
def selectPodToDelete (pod_list : List PodEntry) : Option PodEntry :=
  if pod_list.length > 1 ∧ (groupNodeIps pod_list).length ≤ 2 then
    match pod_list with
    | [] => none
    | p :: ps => some (firstMinByAge p ps)
  else none

lemma firstMinByAge_spec (ps : List PodEntry) :
    ∀ p, firstMinByAge p ps ∈ p :: ps ∧
      (∀ q ∈ p :: ps, (firstMinByAge p ps).age ≤ q.age) ∧
      (∃ l₁ l₂, p :: ps = l₁ ++ firstMinByAge p ps :: l₂ ∧
        ∀ q ∈ l₁, (firstMinByAge p ps).age < q.age) := by
  induction ps with
  | nil =>
    intro p
    refine ⟨List.mem_cons_self p [], ?_, [], [], rfl, by simp⟩
    intro q hq
    rcases List.mem_cons.mp hq with h | h
    · exact h ▸ le_refl _
    · simp at h
  | cons q ps ih =>
    intro p
    by_cases hlt : q.age < p.age
    · have hstep : firstMinByAge p (q :: ps) = firstMinByAge q ps := by
        rw [firstMinByAge, List.foldl_cons, if_pos hlt]
        rfl
      obtain ⟨hmem, hmin, l₁, l₂, hdec, hstrict⟩ := ih q
      rw [hstep]
      refine ⟨List.mem_cons_of_mem p hmem, ?_, p :: l₁, l₂,
        by rw [hdec, List.cons_append], ?_⟩
      · intro r hr
        rcases List.mem_cons.mp hr with h | h
        · have hq : (firstMinByAge q ps).age ≤ q.age :=
            hmin q (List.mem_cons_self q ps)
          rw [h]
          omega
        · exact hmin r h
      · intro r hr
        rcases List.mem_cons.mp hr with h | h
        · have hq : (firstMinByAge q ps).age ≤ q.age :=
            hmin q (List.mem_cons_self q ps)
          rw [h]
          omega
        · exact hstrict r h
    · have hstep : firstMinByAge p (q :: ps) = firstMinByAge p ps := by
        rw [firstMinByAge, List.foldl_cons, if_neg hlt]
        rfl
      obtain ⟨hmem, hmin, l₁, l₂, hdec, hstrict⟩ := ih p
      rw [hstep]
      have hple : p.age ≤ q.age := by omega
      refine ⟨?_, ?_, ?_⟩
      · rcases List.mem_cons.mp hmem with h | h
        · rw [h]
          exact List.mem_cons_self p (q :: ps)
        · exact List.mem_cons_of_mem p (List.mem_cons_of_mem q h)
      · intro r hr
        rcases List.mem_cons.mp hr with h | h
        · rw [h]
          exact hmin p (List.mem_cons_self p ps)
        · rcases List.mem_cons.mp h with h' | h'
          · have hpm : (firstMinByAge p ps).age ≤ p.age :=
              hmin p (List.mem_cons_self p ps)
            rw [h']
            omega
          · exact hmin r (List.mem_cons_of_mem p h')
      · cases l₁ with
        | nil =>
          simp only [List.nil_append] at hdec
          have hp : p = firstMinByAge p ps := by
            have hh := congrArg (fun l => List.head? l) hdec
            simpa using hh
          refine ⟨[], q :: ps, ?_, by simp⟩
          rw [List.nil_append, ← hp]
        | cons x l₁' =>
          have hx : p = x := by
            have hh := congrArg (fun l => List.head? l) hdec
            simpa using hh
          subst hx
          have htl : ps = l₁' ++ firstMinByAge p ps :: l₂ := by
            have hh := congrArg (fun l => List.tail l) hdec
            simpa using hh
          refine ⟨p :: q :: l₁', l₂, ?_, ?_⟩
          · rw [List.cons_append, List.cons_append, ← htl]
          · have hfp : (firstMinByAge p ps).age < p.age :=
              hstrict p (List.mem_cons_self p l₁')
            intro r hr
            rcases List.mem_cons.mp hr with h | h
            · rw [h]
              exact hfp
            · rcases List.mem_cons.mp h with h' | h'
              · rw [h']
                omega
              · exact hstrict r (List.mem_cons_of_mem p h')

/-- Claim C4: for every pod group, the deletion loop of
`cleanup_duplicate_pods` produces no candidate when the group has at most
one member, produces no candidate when the group has more than one member
spread over more than two distinct host IPs, and otherwise marks exactly
one member for deletion: a member of minimal age that is earlier in the
group's input order than every other minimal-age member. -/
theorem cleanup_group_selection (pod_list : List PodEntry) :
    (pod_list.length ≤ 1 → selectPodToDelete pod_list = none) ∧
    (pod_list.length > 1 → 2 < (groupNodeIps pod_list).length →
      selectPodToDelete pod_list = none) ∧
    (pod_list.length > 1 → (groupNodeIps pod_list).length ≤ 2 →
      ∃ p, selectPodToDelete pod_list = some p ∧ p ∈ pod_list ∧
        (∀ q ∈ pod_list, p.age ≤ q.age) ∧
        (∃ l₁ l₂, pod_list = l₁ ++ p :: l₂ ∧ ∀ q ∈ l₁, p.age < q.age)) := by
  refine ⟨?_, ?_, ?_⟩
  · intro h
    rw [selectPodToDelete.eq_def, if_neg]
    omega
  · intro h1 h2
    rw [selectPodToDelete.eq_def, if_neg]
    omega
  · intro h1 h2
    rw [selectPodToDelete.eq_def, if_pos ⟨h1, h2⟩]
    cases pod_list with
    | nil => simp at h1
    | cons p ps =>
      obtain ⟨hmem, hmin, hdec⟩ := firstMinByAge_spec ps p
      exact ⟨firstMinByAge p ps, rfl, hmem, hmin, hdec⟩

/-- Witness for claim C4, at the spec's end-to-end scenario: pods A
(age 120, host 10.0.0.1) and B (age 30, host 10.0.0.2) share a base name;
the group qualifies and the younger pod B is the one marked. -/
theorem cleanup_group_selection_witness :
    selectPodToDelete
      [⟨"ns1", "svc-a", "10.0.0.1", 120⟩, ⟨"ns1", "svc-b", "10.0.0.2", 30⟩] =
      some ⟨"ns1", "svc-b", "10.0.0.2", 30⟩ := by
  obtain ⟨p, hsel, hmem, hmin, -⟩ :=
    (cleanup_group_selection
      [⟨"ns1", "svc-a", "10.0.0.1", 120⟩, ⟨"ns1", "svc-b", "10.0.0.2", 30⟩]).2.2
      (by decide) (by decide)
  have hp : p = ⟨"ns1", "svc-b", "10.0.0.2", 30⟩ := by
    rcases List.mem_cons.mp hmem with h | h
    · exfalso
      have h30 := hmin ⟨"ns1", "svc-b", "10.0.0.2", 30⟩ (by simp)
      rw [h] at h30
      simp at h30
    · simpa using h
  rw [hsel, hp]

/-- Python `str.lower()`, character-wise (the status strings involved are
ASCII).  Defined structurally so that it evaluates by kernel reduction. -/
def strLower (s : String) : String :=
  ⟨s.data.map Char.toLower⟩

/-! ## Claim C5: `wait_for_server_status` (source lines 194-230)

Python:
  waited = 0
  while waited < timeout:
      try:
          server = conn.compute.get_server(server_id)
          if server.status.lower() == desired_status.lower():
              return True
          time.sleep(poll_interval)
          waited += poll_interval
      except Exception as e:
          log(...); time.sleep(poll_interval); waited += poll_interval
  return False

Each iteration of the loop is one poll; its outcome is either the status
string returned by `get_server` or an exception. -/

/-- The outcome of one poll of the server status: either the status string
read from the API, or an exception raised by the API call. -/
inductive PollResult where
  | ok (status : String)
  | error
deriving DecidableEq, Repr

/-- Whether a poll outcome observed the desired status, compared
case-insensitively (`server.status.lower() == desired_status.lower()`);
an exception observes nothing. -/
def pollMatches (r : PollResult) (desired : String) : Bool :=
  match r with
  | PollResult.ok st => strLower st = strLower desired
  | PollResult.error => false

/-- The `while waited < timeout` loop of `wait_for_server_status`.  `polls i`
is the outcome of the i-th poll, `waited` the seconds accumulated so far.
The loop only terminates when the sleep interval is positive (with
`poll_interval = 0` the Python loop never ends), hence the positivity
argument. -/
def waitLoop (polls : Nat → PollResult) (desired : String)
    (timeout poll_interval : Nat) (hp : 0 < poll_interval)
    (waited i : Nat) : Bool :=
  if _h : waited < timeout then
    match polls i with
    | PollResult.ok st =>
        if strLower st = strLower desired then true
        else waitLoop polls desired timeout poll_interval hp
          (waited + poll_interval) (i + 1)
    | PollResult.error =>
        waitLoop polls desired timeout poll_interval hp
          (waited + poll_interval) (i + 1)
  else false
termination_by timeout - waited
decreasing_by
  all_goals omega

/-- Source function `wait_for_server_status`: run the polling loop from
`waited = 0` with the first poll. -/
def wait_for_server_status (polls : Nat → PollResult) (desired : String)
    (timeout poll_interval : Nat) (hp : 0 < poll_interval) : Bool :=
  waitLoop polls desired timeout poll_interval hp 0 0

lemma waitLoop_eq_true_iff (polls : Nat → PollResult) (desired : String)
    (timeout poll_interval : Nat) (hp : 0 < poll_interval) :
    ∀ (fuel waited i : Nat), timeout ≤ waited + fuel * poll_interval →
      (waitLoop polls desired timeout poll_interval hp waited i = true ↔
        ∃ k, waited + k * poll_interval < timeout ∧
          pollMatches (polls (i + k)) desired = true) := by
  intro fuel
  induction fuel with
  | zero =>
    intro waited i hfuel
    rw [waitLoop]
    simp only [Nat.zero_mul, Nat.add_zero] at hfuel
    rw [dif_neg (by omega)]
    constructor
    · intro h
      exact absurd h (by simp)
    · rintro ⟨k, hk, -⟩
      exfalso
      have : waited ≤ waited + k * poll_interval := Nat.le_add_right _ _
      omega
  | succ fuel ih =>
    intro waited i hfuel
    rw [Nat.succ_mul] at hfuel
    by_cases hw : waited < timeout
    · rw [waitLoop, dif_pos hw]
      cases hpoll : polls i with
      | ok st =>
        by_cases hst : strLower st = strLower desired
        · simp only [if_pos hst]
          constructor
          · intro _
            exact ⟨0, by simpa using hw, by simp [hpoll, pollMatches, hst]⟩
          · intro _
            trivial
        · simp only [if_neg hst]
          rw [ih (waited + poll_interval) (i + 1) (by omega)]
          constructor
          · rintro ⟨k, hk, hm⟩
            have hkk : waited + (k + 1) * poll_interval =
                waited + poll_interval + k * poll_interval := by ring
            refine ⟨k + 1, by omega, ?_⟩
            have hix : i + (k + 1) = i + 1 + k := by omega
            rw [hix]
            exact hm
          · rintro ⟨k, hk, hm⟩
            cases k with
            | zero =>
              exfalso
              rw [Nat.add_zero] at hm
              rw [hpoll] at hm
              simp [pollMatches, hst] at hm
            | succ k =>
              have hkk : waited + (k + 1) * poll_interval =
                  waited + poll_interval + k * poll_interval := by ring
              refine ⟨k, by omega, ?_⟩
              have hix : i + 1 + k = i + (k + 1) := by omega
              rw [hix]
              exact hm
      | error =>
        rw [ih (waited + poll_interval) (i + 1) (by omega)]
        constructor
        · rintro ⟨k, hk, hm⟩
          have hkk : waited + (k + 1) * poll_interval =
              waited + poll_interval + k * poll_interval := by ring
          refine ⟨k + 1, by omega, ?_⟩
          have hix : i + (k + 1) = i + 1 + k := by omega
          rw [hix]
          exact hm
        · rintro ⟨k, hk, hm⟩
          cases k with
          | zero =>
            exfalso
            rw [Nat.add_zero] at hm
            rw [hpoll] at hm
            simp [pollMatches] at hm
          | succ k =>
            have hkk : waited + (k + 1) * poll_interval =
                waited + poll_interval + k * poll_interval := by ring
            refine ⟨k, by omega, ?_⟩
            have hix : i + 1 + k = i + (k + 1) := by omega
            rw [hix]
            exact hm
    · rw [waitLoop, dif_neg hw]
      constructor
      · intro h
        exact absurd h (by simp)
      · rintro ⟨k, hk, -⟩
        exfalso
        have : waited ≤ waited + k * poll_interval := Nat.le_add_right _ _
        omega

/-- Claim C5: for every sequence of poll outcomes, `wait_for_server_status`
returns True exactly when some poll inside the timeout budget (the k-th
poll happens after k * poll_interval accumulated seconds, which must still
be below the timeout) observes a status equal, case-insensitively, to the
desired status; otherwise — in particular once the accumulated waiting
reaches the timeout — it returns False.  The function is total (it never
raises): a poll that errors simply consumes one interval of the budget and
polling continues, as the equivalence counts error polls in k. -/
theorem wait_for_server_status_true_iff (polls : Nat → PollResult)
    (desired : String) (timeout poll_interval : Nat)
    (hp : 0 < poll_interval) :
    wait_for_server_status polls desired timeout poll_interval hp = true ↔
      ∃ k, k * poll_interval < timeout ∧
        pollMatches (polls k) desired = true := by
  have h1 : timeout * 1 ≤ timeout * poll_interval := Nat.mul_le_mul_left timeout hp
  rw [wait_for_server_status,
    waitLoop_eq_true_iff polls desired timeout poll_interval hp timeout 0 0 (by omega)]
  simp

/-- Witness for claim C5: two error polls followed by a matching "ACTIVE"
status inside a 300-second budget with 10-second intervals yields True. -/
theorem wait_for_server_status_true_iff_witness :
    wait_for_server_status
      (fun i => match i with
        | 0 => PollResult.error
        | 1 => PollResult.error
        | _ => PollResult.ok "ACTIVE")
      "active" 300 10 (by decide) = true := by
  rw [wait_for_server_status_true_iff]
  exact ⟨2, by decide, rfl⟩

/-! ## Claim C6: the stop action (`stop_server`, source lines 232-266)

Python, after connect and find_servers have succeeded:
  if not servers:
      log("No servers found ..."); return
  for server in servers:
      try:
          if server.status.lower() != "shutoff":
              log(...); conn.compute.stop_server(server.id); log(...)
          else:
              log("Server already stopped ...")
      except Exception as e:
          log(f"Failed to stop server ...", "error")
-/

/-- A server record as used by the stop action: identifier, name, status. -/
structure OSServer where
  id : String
  name : String
  status : String
deriving DecidableEq, Repr

/-- The outcome of one `conn.compute.stop_server(id)` API call: it either
succeeds or raises. -/
inductive StopOutcome where
  | ok
  | fail
deriving DecidableEq, Repr

/-- The body of the per-server `try` block of `stop_server`: the stop calls
issued for this server (the call is issued whenever the status is not
SHUTOFF, case-insensitively), paired with whether the body raised. -/
def stopAttempt (outcome : String → StopOutcome) (s : OSServer) :
    List String × Bool :=
  if strLower s.status ≠ "shutoff" then
    ([s.id], match outcome s.id with
      | StopOutcome.ok => false
      | StopOutcome.fail => true)
  else ([], false)

/-- The per-server loop of `stop_server`, given the matched servers: the
empty match set logs and returns immediately; otherwise each server is
processed inside a `try` whose exception (the `Bool` component of
`stopAttempt`) is logged and discarded, so the loop always reaches the next
server and the function returns normally.  The result is the list of server
ids for which a stop call was issued, in order. -/
def stop_server (outcome : String → StopOutcome) (servers : List OSServer) :
    List String :=
  match servers with
  | [] => []
  | s :: rest =>
    (s :: rest).foldl (fun issued t => issued ++ (stopAttempt outcome t).1) []

lemma foldl_append_stopAttempt (outcome : String → StopOutcome)
    (servers : List OSServer) :
    ∀ init, servers.foldl (fun issued s => issued ++ (stopAttempt outcome s).1) init =
      init ++ servers.foldl (fun issued s => issued ++ (stopAttempt outcome s).1) [] := by
  induction servers with
  | nil => intro init; simp
  | cons s rest ih =>
    intro init
    rw [List.foldl_cons, List.foldl_cons, ih, List.nil_append,
      ih ((stopAttempt outcome s).1), List.append_assoc]

/-- Claim C6: whatever the outcomes of the individual stop calls (so in
particular when some of them fail and are caught), the stop action issues a
stop call exactly for the matched servers whose status is not SHUTOFF
compared case-insensitively, in input order; and the empty match set issues
no call at all. -/
theorem stop_server_calls_exact (outcome : String → StopOutcome)
    (servers : List OSServer) :
    stop_server outcome servers =
      servers.filterMap
        (fun s => if strLower s.status ≠ "shutoff" then some s.id else none) ∧
    stop_server outcome [] = [] := by
  constructor
  · cases servers with
    | nil => rfl
    | cons s rest =>
      rw [stop_server]
      induction rest generalizing s with
      | nil =>
        rw [List.foldl_cons, List.foldl_nil, List.nil_append, List.filterMap_cons]
        by_cases h : strLower s.status ≠ "shutoff"
        · simp [stopAttempt, h]
        · simp [stopAttempt, h]
      | cons t rest ih =>
        rw [List.foldl_cons, List.nil_append, foldl_append_stopAttempt, ih t,
          List.filterMap_cons]
        by_cases h : strLower s.status ≠ "shutoff"
        · simp [stopAttempt, h, List.filterMap_cons]
        · simp [stopAttempt, h, List.filterMap_cons]
  · rfl

/-! ## Claims C7 and C10: the per-server start flow
(`start_server`, source lines 419-458)

Python, inside `for server in servers:` with `v1` the cluster client or None:
  if server.status.lower() == "shutoff":
      conn.compute.start_server(server.id)
      if wait_for_server_status(conn, server.id, "active"):
          if v1:
              server_ip = get_server_ip(conn, server)
              if server_ip:
                  node_name = find_node_by_ip(v1, server_ip)
                  if node_name:
                      if wait_for_node_ready(node_name):
                          cleanup_duplicate_pods()
                      else:
                          log(... did not become ready ..., "warning")
                  else:
                      log(... not found ..., "warning"); cleanup_duplicate_pods()
              else:
                  log(... Could not determine IP ..., "warning"); cleanup_duplicate_pods()
          else:
              log("Kubernetes not available ...")
      else:
          log("Timeout waiting ...", "error")
  else:
      log("Server already running ...")
      if v1:
          cleanup_duplicate_pods()
-/

/-- The environment determining one iteration of the start loop: the
server's initial status, and the outcomes of the external calls the
iteration may make. -/
structure StartEnv where
  kubeAvailable : Bool
  serverStatus : String
  waitActive : Bool
  serverIp : Option String
  nodeForIp : Option String
  nodeReady : Bool
deriving DecidableEq, Repr

/-- The observable interactions of one iteration of the start loop, in
order. -/
inductive StartStep where
  | startCall
  | waitStatus
  | getIp
  | findNode
  | waitNodeReady
  | cleanup
deriving DecidableEq, Repr

/-- One iteration of the `for server in servers` loop of `start_server`:
the sequence of calls the iteration makes under environment `env`. -/
def start_one_server (env : StartEnv) : List StartStep :=
  if strLower env.serverStatus = "shutoff" then
    StartStep.startCall :: StartStep.waitStatus ::
      (if env.waitActive then
        (if env.kubeAvailable then
          StartStep.getIp ::
            (match env.serverIp with
              | some _ =>
                StartStep.findNode ::
                  (match env.nodeForIp with
                    | some _ =>
                      StartStep.waitNodeReady ::
                        (if env.nodeReady then [StartStep.cleanup] else [])
                    | none => [StartStep.cleanup])
              | none => [StartStep.cleanup])
        else [])
      else [])
  else
    (if env.kubeAvailable then [StartStep.cleanup] else [])

/-- The whole start loop over the matched servers: each per-server iteration
catches its own exceptions, so every environment in the list is processed. -/
def start_server (envs : List StartEnv) : List StartStep :=
  envs.flatMap start_one_server

/-- Claim C7: for a server that was SHUTOFF, was started, and reached ACTIVE
with a cluster client available: if IP resolution fails, or the IP maps to
no node, the duplicate-pod reconciler is still invoked; but if a node is
found and the node-ready wait times out, the reconciler is not invoked for
that server. -/
theorem start_cleanup_fallback (env : StartEnv)
    (hs : strLower env.serverStatus = "shutoff")
    (hw : env.waitActive = true)
    (hk : env.kubeAvailable = true) :
    (env.serverIp = none → StartStep.cleanup ∈ start_one_server env) ∧
    (∀ ip, env.serverIp = some ip → env.nodeForIp = none →
      StartStep.cleanup ∈ start_one_server env) ∧
    (∀ ip node, env.serverIp = some ip → env.nodeForIp = some node →
      env.nodeReady = false → StartStep.cleanup ∉ start_one_server env) := by
  refine ⟨?_, ?_, ?_⟩
  · intro hip
    rw [start_one_server, if_pos hs, hw, if_pos rfl, hk, if_pos rfl, hip]
    simp
  · intro ip hip hnode
    rw [start_one_server, if_pos hs, hw, if_pos rfl, hk, if_pos rfl, hip, hnode]
    simp
  · intro ip node hip hnode hready
    rw [start_one_server, if_pos hs, hw, if_pos rfl, hk, if_pos rfl, hip, hnode,
      hready]
    simp

/-- Witness for claim C7 at concrete environments: with IP resolution
failing the reconciler runs; with the node found but never ready it does
not. -/
theorem start_cleanup_fallback_witness :
    StartStep.cleanup ∈ start_one_server
      ⟨true, "SHUTOFF", true, none, none, false⟩ ∧
    StartStep.cleanup ∉ start_one_server
      ⟨true, "SHUTOFF", true, some "10.0.0.7", some "node2-a", false⟩ :=
  ⟨(start_cleanup_fallback ⟨true, "SHUTOFF", true, none, none, false⟩
      (by decide) rfl rfl).1 rfl,
   (start_cleanup_fallback ⟨true, "SHUTOFF", true, some "10.0.0.7", some "node2-a", false⟩
      (by decide) rfl rfl).2.2 "10.0.0.7" "node2-a" rfl rfl rfl⟩

/-- Claim C10: for a server that was SHUTOFF and whose wait for ACTIVE timed
out, the iteration consists of the start call and the status wait only — no
IP resolution, node lookup, node-ready wait or reconciler invocation — and
the loop goes on to process the remaining servers. -/
theorem start_timeout_no_kube (env : StartEnv)
    (hs : strLower env.serverStatus = "shutoff")
    (hw : env.waitActive = false) :
    start_one_server env = [StartStep.startCall, StartStep.waitStatus] ∧
    StartStep.getIp ∉ start_one_server env ∧
    StartStep.findNode ∉ start_one_server env ∧
    StartStep.waitNodeReady ∉ start_one_server env ∧
    StartStep.cleanup ∉ start_one_server env ∧
    (∀ rest, start_server (env :: rest) =
      start_one_server env ++ start_server rest) := by
  have heq : start_one_server env = [StartStep.startCall, StartStep.waitStatus] := by
    rw [start_one_server, if_pos hs, hw]
    simp
  refine ⟨heq, ?_, ?_, ?_, ?_, ?_⟩
  · rw [heq]; simp
  · rw [heq]; simp
  · rw [heq]; simp
  · rw [heq]; simp
  · intro rest
    rw [start_server, List.flatMap_cons]
    rfl

/-- Witness for claim C10 at a concrete environment whose ACTIVE wait timed
out. -/
theorem start_timeout_no_kube_witness :
    start_one_server ⟨true, "SHUTOFF", false, some "10.0.0.7", some "node2-a", true⟩ =
      [StartStep.startCall, StartStep.waitStatus] :=
  (start_timeout_no_kube
    ⟨true, "SHUTOFF", false, some "10.0.0.7", some "node2-a", true⟩
    (by decide) rfl).1

/-! ## Claim C8: command-line validation in `main` (source lines 607-642)

Python:
  if len(sys.argv) != 2 or sys.argv[1] not in ["start", "stop"]:
      print("Usage: python control_and_cleanup.py [start|stop]")
      print("Environment variables:")
      print("  PARTIAL_SERVER_NAME: Server name pattern (default: node2)")
      print("  CLOUD_NAME: OpenStack cloud name (default: otc)")
      print("  NAMESPACES: Comma-separated Kubernetes namespaces")
      sys.exit(1)
  action = sys.argv[1]
  try:
      if action == "start": start_server()
      elif action == "stop": stop_server()
  except Exception as e:
      sys.exit(1)
-/

/-- The usage text printed by `main` on an invalid invocation, line by
line. -/
def usageLines : List String :=
  ["Usage: python control_and_cleanup.py [start|stop]",
   "Environment variables:",
   "  PARTIAL_SERVER_NAME: Server name pattern (default: node2)",
   "  CLOUD_NAME: OpenStack cloud name (default: otc)",
   "  NAMESPACES: Comma-separated Kubernetes namespaces"]

/-- The result of running one of the two actions: either it completes, or
an exception escapes to `main`; either way `calls` counts the cloud and
cluster API calls the action made. -/
inductive ActionResult where
  | ok (calls : Nat)
  | err (calls : Nat)
deriving DecidableEq, Repr

/-- The observable outcome of one run of `main`: the lines printed to
standard output, the process exit status, and the number of cloud/cluster
API calls made. -/
structure MainRun where
  printed : List String
  exitCode : Nat
  apiCalls : Nat
deriving DecidableEq, Repr

/-- Source `main` (lines 607-642).  `argv` is the full `sys.argv`, program
name included; `runStart` and `runStop` describe what the corresponding
action would do if invoked.  An invalid argument vector prints the usage
text and exits with status 1 before any connection is attempted; a valid
one dispatches to the action, exiting 1 when the action raised and 0
otherwise. -/
def main (argv : List String)
    (runStart runStop : ActionResult) : MainRun :=
  if argv.length = 2 ∧ (argv[1]? = some "start" ∨ argv[1]? = some "stop") then
    match (if argv[1]? = some "start" then runStart else runStop) with
    | ActionResult.ok c => ⟨[], 0, c⟩
    | ActionResult.err c => ⟨[], 1, c⟩
  else ⟨usageLines, 1, 0⟩

/-- Claim C8: every argument vector that does not consist of the program
name plus exactly one positional argument equal to "start" or "stop" makes
`main` print the usage text (environment variables included), exit with
status 1, and make no cloud or cluster API call — whatever the actions
would have done. -/
theorem main_invalid_args_usage (argv : List String)
    (runStart runStop : ActionResult)
    (h : ¬ (argv.length = 2 ∧ (argv[1]? = some "start" ∨ argv[1]? = some "stop"))) :
    main argv runStart runStop = ⟨usageLines, 1, 0⟩ := by
  rw [main, if_neg h]

/-- Witness for claim C8 at the spec's concrete invalid invocation
`restart`. -/
theorem main_invalid_args_usage_witness :
    main ["control_and_cleanup.py", "restart"] (ActionResult.ok 5)
        (ActionResult.err 3) =
      ⟨usageLines, 1, 0⟩ :=
  main_invalid_args_usage ["control_and_cleanup.py", "restart"]
    (ActionResult.ok 5) (ActionResult.err 3) (by decide)

/-! ## Claim C9: `is_node_ready` (source lines 332-357)

Python:
  try:
      v1 = client.CoreV1Api()
      node = v1.read_node(name=node_name)
      for condition in node.status.conditions:
          if condition.type == "Ready":
              return condition.status == "True"
      return False
  except Exception as e:
      log(...); return False
-/

/-- One entry of a node's condition list: its type and status strings. -/
structure NodeCondition where
  type : String
  status : String
deriving DecidableEq, Repr

/-- The outcome of reading the node: its condition list, or an exception
anywhere inside the `try` block. -/
inductive NodeReadResult where
  | ok (conditions : List NodeCondition)
  | err
deriving DecidableEq, Repr

/-- The `for condition in node.status.conditions` loop of `is_node_ready`:
returns at the first condition whose type is "Ready", comparing its status
with the string "True"; falls through to False. -/
def readyScan : List NodeCondition → Bool
  | [] => false
  | c :: rest =>
    if c.type = "Ready" then c.status = "True" else readyScan rest

/-- Source function `is_node_ready` (lines 332-357): any error reading the
node is caught and yields False. -/
def is_node_ready (r : NodeReadResult) : Bool :=
  match r with
  | NodeReadResult.ok conditions => readyScan conditions
  | NodeReadResult.err => false

lemma readyScan_true (conditions : List NodeCondition) :
    readyScan conditions = true →
      ∃ c ∈ conditions, c.type = "Ready" ∧ c.status = "True" := by
  induction conditions with
  | nil => intro h; exact absurd h (by simp [readyScan])
  | cons c rest ih =>
    intro h
    rw [readyScan] at h
    by_cases hc : c.type = "Ready"
    · rw [if_pos hc] at h
      exact ⟨c, List.mem_cons_self c rest, hc, by simpa using h⟩
    · rw [if_neg hc] at h
      obtain ⟨d, hd, hdt, hds⟩ := ih h
      exact ⟨d, List.mem_cons_of_mem c hd, hdt, hds⟩

lemma readyScan_no_ready (conditions : List NodeCondition)
    (h : ∀ c ∈ conditions, c.type ≠ "Ready") :
    readyScan conditions = false := by
  induction conditions with
  | nil => rfl
  | cons c rest ih =>
    rw [readyScan, if_neg (h c (List.mem_cons_self c rest))]
    exact ih (fun d hd => h d (List.mem_cons_of_mem c hd))

/-- Claim C9: `is_node_ready` returns False on a read error, returns False
(and in particular does not raise or return True) when the condition list
has no condition of type "Ready", and returns True only when some condition
of type "Ready" has status string exactly "True". -/
theorem is_node_ready_spec :
    is_node_ready NodeReadResult.err = false ∧
    (∀ conditions, (∀ c ∈ conditions, c.type ≠ "Ready") →
      is_node_ready (NodeReadResult.ok conditions) = false) ∧
    (∀ conditions, is_node_ready (NodeReadResult.ok conditions) = true →
      ∃ c ∈ conditions, c.type = "Ready" ∧ c.status = "True") := by
  refine ⟨rfl, ?_, ?_⟩
  · intro conditions h
    exact readyScan_no_ready conditions h
  · intro conditions h
    exact readyScan_true conditions h

/-- Witness for claim C9 at a concrete condition list without a "Ready"
condition. -/
theorem is_node_ready_spec_witness :
    is_node_ready (NodeReadResult.ok
      [⟨"DiskPressure", "False"⟩, ⟨"MemoryPressure", "False"⟩]) = false :=
  is_node_ready_spec.2.1
    [⟨"DiskPressure", "False"⟩, ⟨"MemoryPressure", "False"⟩] (by decide)

end ControlAndCleanup
